import Mathlib

/-!
Verification of the PS2 IEEE-754 variant floating point library
(`ps2-floating-point-rs`) against its natural-language specification.

The Rust source is shallowly embedded below.  Machine integers (`u8`,
`u32`) are modelled as `Nat` with explicit `% 2^32` where the source uses
wrapping arithmetic; code that can `panic!` is modelled as `Option`-valued
(`none` = panic).  The normalization `while` loop of `do_add_or_sub` moves
its tracked leading-bit position monotonically towards 23 by single steps
and exits exactly when it reaches 23, so it is rendered as two structurally
recursive helpers (`norm_shrink`, `norm_grow`) run for the exact iteration
count `|P - 23|`; an early saturate/flush return is `Sum.inl`.
-/

/-- The struct `Ps2Float { sign: bool, exponent: u8, mantissa: u32 }`.
`exponent` and `mantissa` are `Nat` carrying the `u8`/`u32` typing
invariants `exponent < 256`, `mantissa < 2^32` where theorems need them. -/
structure Ps2Float where
  sign : Bool
  exponent : Nat
  mantissa : Nat
  deriving DecidableEq, Repr

/-- `MAX_FLOATING_POINT_VALUE`: the maximum PS2 float (+Fmax). -/
def Ps2Float.MAX_FLOATING_POINT_VALUE : Nat := 0x7FFFFFFF

/-- `MIN_FLOATING_POINT_VALUE`: the minimum PS2 float (-Fmax). -/
def Ps2Float.MIN_FLOATING_POINT_VALUE : Nat := 0xFFFFFFFF

/-- `POSITIVE_INFINITY_VALUE`. -/
def Ps2Float.POSITIVE_INFINITY_VALUE : Nat := 0x7F800000

/-- `NEGATIVE_INFINITY_VALUE`. -/
def Ps2Float.NEGATIVE_INFINITY_VALUE : Nat := 0xFF800000

/-- `IMPLICIT_LEADING_BIT_POS`: bit position of the implicit leading bit. -/
def Ps2Float.IMPLICIT_LEADING_BIT_POS : Int := 23

/-- `Ps2Float::new(value: u32)`: unpack a 32-bit word into the fields. -/
def Ps2Float.new (value : Nat) : Ps2Float where
  sign := ((value >>> 31) &&& 1) != 0
  exponent := (value >>> 23) &&& 0xFF
  mantissa := value &&& 0x7FFFFF

/-- `Ps2Float::from_params(sign, exponent, mantissa)`. -/
def Ps2Float.from_params (sign : Bool) (exponent mantissa : Nat) : Ps2Float :=
  ⟨sign, exponent, mantissa⟩

/-- `Ps2Float::max()` (+Fmax). -/
def Ps2Float.max : Ps2Float := Ps2Float.new Ps2Float.MAX_FLOATING_POINT_VALUE

/-- `Ps2Float::min()` (-Fmax). -/
def Ps2Float.min : Ps2Float := Ps2Float.new Ps2Float.MIN_FLOATING_POINT_VALUE

/-- `Ps2Float::default()` (the derived `Default`: all fields zero). -/
def Ps2Float.default : Ps2Float := ⟨false, 0, 0⟩

/-- `Ps2Float::as_u32()`: repack the fields into a 32-bit word
(the source builds the result with `|=`). -/
def Ps2Float.as_u32 (f : Ps2Float) : Nat :=
  ((cond f.sign 1 0) <<< 31) ||| (f.exponent <<< 23) ||| f.mantissa

/-- `is_denormalized`: exponent is 0. -/
def Ps2Float.is_denormalized (f : Ps2Float) : Bool :=
  f.exponent == 0

/-- `is_abnormal`: the encoding is one of MAX, MIN, +INF, -INF. -/
def Ps2Float.is_abnormal (f : Ps2Float) : Bool :=
  let val := f.as_u32
  val == Ps2Float.MAX_FLOATING_POINT_VALUE
    || val == Ps2Float.MIN_FLOATING_POINT_VALUE
    || val == Ps2Float.POSITIVE_INFINITY_VALUE
    || val == Ps2Float.NEGATIVE_INFINITY_VALUE

/-- `is_zero`: the low 31 bits of the encoding are zero. -/
def Ps2Float.is_zero (f : Ps2Float) : Bool :=
  f.as_u32 &&& 0x7FFFFFFF == 0

/-- The signed two's-complement comparison key used by `Ord::cmp`:
the low 31 bits of the encoding, negated when the sign bit is set. -/
def Ps2Float.cmp_val (f : Ps2Float) : Int :=
  let m : Int := (f.as_u32 &&& 0x7FFFFFFF : Nat)
  if f.sign then -m else m

/-- `Ord::cmp` on `Ps2Float` (comparison of the two's-complement keys). -/
def Ps2Float.cmp (a b : Ps2Float) : Ordering :=
  if a.cmp_val < b.cmp_val then Ordering.lt
  else if a.cmp_val = b.cmp_val then Ordering.eq
  else Ordering.gt

/-- `determine_addition_operation_sign`; `none` models the
`panic!("Unhandled addition operation flags")` branch. -/
def Ps2Float.determine_addition_operation_sign (a b : Ps2Float) : Option Bool :=
  if a.is_zero && b.is_zero then
    if !a.sign || !b.sign then some false
    else if a.sign && b.sign then some true
    else none
  else
    some a.sign

/-- `determine_subtraction_operation_sign`; `none` models the
`panic!("Unhandled subtraction operation flags")` branch. -/
def Ps2Float.determine_subtraction_operation_sign (a b : Ps2Float) : Option Bool :=
  if a.is_zero && b.is_zero then
    if !a.sign || b.sign then some false
    else if a.sign && !b.sign then some true
    else none
  else
    let b_sign := !b.sign
    match Ps2Float.cmp a b with
    | Ordering.lt => some b_sign
    | Ordering.eq => some a.sign
    | Ordering.gt => some a.sign

/-- `solve_demoralized_operation`; `none` models the panics (the
"Both numbers are not denormalized" branch and the sign-helper panics). -/
def Ps2Float.solve_demoralized_operation (a b : Ps2Float) (add : Bool) :
    Option Ps2Float :=
  let base : Option Ps2Float :=
    if a.is_denormalized && !b.is_denormalized then some b
    else if !a.is_denormalized && b.is_denormalized then some a
    else if a.is_denormalized && b.is_denormalized then some Ps2Float.default
    else none
  match base with
  | none => none
  | some result =>
    let s := if add then Ps2Float.determine_addition_operation_sign a b
             else Ps2Float.determine_subtraction_operation_sign a b
    match s with
    | none => none
    | some sg => some { result with sign := sg }

/-- `solve_abnormal_addition_or_subtraction_operation`; `none` models the
`panic!("Unhandled abnormal floating point operation")` branch. -/
def Ps2Float.solve_abnormal_addition_or_subtraction_operation
    (a b : Ps2Float) (add : Bool) : Option Ps2Float :=
  let a_val := a.as_u32
  let b_val := b.as_u32
  if a_val = Ps2Float.MAX_FLOATING_POINT_VALUE ∧
     b_val = Ps2Float.MAX_FLOATING_POINT_VALUE then
    some (if add then Ps2Float.max else Ps2Float.default)
  else if a_val = Ps2Float.MIN_FLOATING_POINT_VALUE ∧
     b_val = Ps2Float.MIN_FLOATING_POINT_VALUE then
    some (if add then Ps2Float.min else Ps2Float.default)
  else if a_val = Ps2Float.MIN_FLOATING_POINT_VALUE ∧
     b_val = Ps2Float.MAX_FLOATING_POINT_VALUE then
    some (if add then Ps2Float.max else Ps2Float.min)
  else if a_val = Ps2Float.MAX_FLOATING_POINT_VALUE ∧
     b_val = Ps2Float.MIN_FLOATING_POINT_VALUE then
    some (if add then Ps2Float.default else Ps2Float.max)
  else if a_val = Ps2Float.POSITIVE_INFINITY_VALUE ∧
     b_val = Ps2Float.POSITIVE_INFINITY_VALUE then
    some (if add then Ps2Float.max else Ps2Float.default)
  else if a_val = Ps2Float.NEGATIVE_INFINITY_VALUE ∧
     b_val = Ps2Float.POSITIVE_INFINITY_VALUE then
    some (if add then Ps2Float.default else Ps2Float.min)
  else if a_val = Ps2Float.NEGATIVE_INFINITY_VALUE ∧
     b_val = Ps2Float.NEGATIVE_INFINITY_VALUE then
    some (if add then Ps2Float.min else Ps2Float.default)
  else
    none

/-- The bit scan of `get_most_significant_bit_position`: test bits
`k-1, k-2, ..., 0` in turn; `-1` when none is set. -/
def Ps2Float.msb_scan (value : Nat) : Nat → Int
  | 0 => -1
  | k + 1 =>
    if (value >>> k) &&& 1 ≠ 0 then (k : Int) else Ps2Float.msb_scan value k

/-- `get_most_significant_bit_position`: scan from bit 31 down. -/
def Ps2Float.get_most_significant_bit_position (value : Nat) : Int :=
  Ps2Float.msb_scan value 32

/-- `u32::wrapping_sub`. -/
def wrap_sub32 (a b : Nat) : Nat :=
  (a + (4294967296 - b % 4294967296)) % 4294967296

/-- The `Ordering::Greater` arm of the normalization loop (leading bit
position above 23), run for its exact iteration count: shift the mantissa
right, and increment the exponent with `u8::checked_add` semantics —
on overflow (`exponent = 255`) return `min`/`max` by sign. -/
def Ps2Float.norm_shrink (sign : Bool) : Nat → Nat → Nat → Sum Ps2Float (Nat × Nat)
  | 0, exponent, mantissa => Sum.inr (exponent, mantissa)
  | k + 1, exponent, mantissa =>
    let m := mantissa >>> 1
    if exponent = 255 then
      Sum.inl (if sign then Ps2Float.min else Ps2Float.max)
    else
      Ps2Float.norm_shrink sign k (exponent + 1) m

/-- The `Ordering::Less` arm of the normalization loop (leading bit
position below 23), run for its exact iteration count: shift the mantissa
left (wrapping in 32 bits), and decrement the exponent with
`u8::checked_sub` semantics — on underflow (`exponent = 0`) flush to a
signed zero via `from_params(sign, 0, 0)`. -/
def Ps2Float.norm_grow (sign : Bool) : Nat → Nat → Nat → Sum Ps2Float (Nat × Nat)
  | 0, exponent, mantissa => Sum.inr (exponent, mantissa)
  | k + 1, exponent, mantissa =>
    let m := (mantissa <<< 1) % 4294967296
    if exponent = 0 then
      Sum.inl (Ps2Float.from_params sign 0 0)
    else
      Ps2Float.norm_grow sign k (exponent - 1) m

/-- IEEE-754 binary64 (`f64`) round-to-nearest-even conversion of an
unsigned integer below `2^64`, yielding the integer value of the resulting
double.  The significand holds 53 bits; `sh` is the number of excess bits,
`q` the kept bits, `r` the discarded bits, and the round-up condition is
the strict-half / tie-to-even rule.  For inputs below `2^53` (`sh = 0`)
the conversion is exact.  This models the `as f64` cast of the source's
`round_towards_zero`. -/
def f64_round_nearest (n : Nat) : Nat :=
  let sh := ((Ps2Float.msb_scan n 64 + 1).toNat) - 53
  let q := n >>> sh
  let r := n % 2 ^ sh
  let q2 := if 2 * r > 2 ^ sh ∨ (2 * r = 2 ^ sh ∧ q % 2 = 1) then q + 1 else q
  q2 <<< sh

/-- `round_towards_zero`: reinterpret the 32-bit encoding as `f64`,
truncate, and cast back with Rust's saturating `as u32`.  The `f64`
produced from a `u32` is integer-valued, so `f64::trunc` is the identity
on it; the saturating cast clamps at `u32::MAX`. -/
def Ps2Float.round_towards_zero (f : Ps2Float) : Ps2Float :=
  let d := f64_round_nearest f.as_u32
  Ps2Float.new (if d ≤ 0xFFFFFFFF then d else 0xFFFFFFFF)

/-- The normalization phase of `do_add_or_sub` on the combined mantissa:
skipped when the mantissa is 0, otherwise the `while` loop run for its
exact iteration count `|P - 23|` in the appropriate direction. -/
def Ps2Float.core_normalize (sg : Bool) (res_exponent mantissa : Nat) :
    Option (Bool × Sum Ps2Float (Nat × Nat)) :=
  if mantissa > 0 then
    if Ps2Float.get_most_significant_bit_position mantissa >
        Ps2Float.IMPLICIT_LEADING_BIT_POS then
      some (sg, Ps2Float.norm_shrink sg
        (Ps2Float.get_most_significant_bit_position mantissa - 23).toNat
        res_exponent mantissa)
    else if Ps2Float.get_most_significant_bit_position mantissa <
        Ps2Float.IMPLICIT_LEADING_BIT_POS then
      some (sg, Ps2Float.norm_grow sg
        (23 - Ps2Float.get_most_significant_bit_position mantissa).toNat
        res_exponent mantissa)
    else
      some (sg, Sum.inr (res_exponent, mantissa))
  else
    some (sg, Sum.inr (res_exponent, mantissa))

/-- Everything `do_add_or_sub` computes before the final shaping
(implicit-bit mask and `round_towards_zero`): exponent alignment, mantissa
combination, and the normalization loop.  Yields the result sign together
with either an early-returned float (`Sum.inl`: exponent saturation or
flush-to-zero) or the final exponent/mantissa pair (`Sum.inr`).
`none` models the panic propagated from the sign helper. -/
def Ps2Float.do_add_or_sub_core (self other : Ps2Float) (add : Bool) :
    Option (Bool × Sum Ps2Float (Nat × Nat)) :=
  let exp_diff := if self.exponent ≥ other.exponent
    then self.exponent - other.exponent else other.exponent - self.exponent
  let self_mantissa := self.mantissa ||| 0x800000
  let other_mantissa := other.mantissa ||| 0x800000
  -- `u32::wrapping_shr` masks the shift amount to 5 bits.
  let self_aligned := if self.exponent ≥ other.exponent
    then self_mantissa else self_mantissa >>> (exp_diff % 32)
  let other_aligned := if self.exponent ≥ other.exponent
    then other_mantissa >>> (exp_diff % 32) else other_mantissa
  let res_exponent := if self.exponent ≥ other.exponent
    then self.exponent else other.exponent
  let combined : Option (Nat × Bool) :=
    if add then
      some ((self_aligned + other_aligned) % 4294967296, self.sign)
    else
      match Ps2Float.determine_subtraction_operation_sign self other with
      | none => none
      | some sg => some (wrap_sub32 self_aligned other_aligned, sg)
  match combined with
  | none => none
  | some (mantissa, sg) => Ps2Float.core_normalize sg res_exponent mantissa

/-- `do_add_or_sub`: the core followed by the final shaping — clear the
implicit leading bit and apply `round_towards_zero` (the early returns of
the normalization loop leave `do_add_or_sub` directly, skipping both). -/
def Ps2Float.do_add_or_sub (self other : Ps2Float) (add : Bool) :
    Option Ps2Float :=
  match Ps2Float.do_add_or_sub_core self other add with
  | none => none
  | some (_, Sum.inl f) => some f
  | some (sg, Sum.inr (e, m)) =>
    some (Ps2Float.round_towards_zero ⟨sg, e, m &&& 0x7FFFFF⟩)

/-- `Ps2Float::sub`. -/
def Ps2Float.sub (self subtrahend : Ps2Float) : Option Ps2Float :=
  if self.is_denormalized || subtrahend.is_denormalized then
    Ps2Float.solve_demoralized_operation self subtrahend false
  else if self.is_abnormal && subtrahend.is_abnormal then
    Ps2Float.solve_abnormal_addition_or_subtraction_operation self subtrahend false
  else if Ps2Float.cmp self subtrahend = Ordering.eq then
    match Ps2Float.determine_subtraction_operation_sign self subtrahend with
    | none => none
    | some sg => some { Ps2Float.new 0 with sign := sg }
  else
    Ps2Float.do_add_or_sub self subtrahend false

/-- `Ps2Float::add`. -/
def Ps2Float.add (self addend : Ps2Float) : Option Ps2Float :=
  if self.is_denormalized || addend.is_denormalized then
    Ps2Float.solve_demoralized_operation self addend true
  else if self.is_abnormal && addend.is_abnormal then
    Ps2Float.solve_abnormal_addition_or_subtraction_operation self addend true
  else if self.sign != addend.sign then
    Ps2Float.sub self addend
  else
    Ps2Float.do_add_or_sub self addend true

-- Sanity checks against the repository's test suite (tests/lib.rs).
example : (Ps2Float.new 0x40A9999A).as_u32 = 0x40A9999A := by decide
example : (Ps2Float.new 0x3F800000).add (Ps2Float.new 0x3F800000)
    = some (Ps2Float.new 0x40000000) := by decide
example : (Ps2Float.new 0x40400000).add (Ps2Float.new 0x3F800000)
    = some (Ps2Float.new 0x40800000) := by decide
example : (Ps2Float.new 0x7FFFFFFF).add (Ps2Float.new 0xFFFFFFFF)
    = some (Ps2Float.new 0x00000000) := by decide
example : (Ps2Float.new 0xFF800000).add (Ps2Float.new 0x7F800000)
    = some (Ps2Float.new 0x00000000) := by decide
example : (Ps2Float.new 0x00000000).sub (Ps2Float.new 0x3F800000)
    = some (Ps2Float.new 0xBF800000) := by decide
example : (Ps2Float.new 0x40400000).sub (Ps2Float.new 0x3F800000)
    = some (Ps2Float.new 0x40000000) := by decide
example : (Ps2Float.new 0x00000000).sub (Ps2Float.new 0x7F800000)
    = some (Ps2Float.new 0xFF800000) := by decide
example : (Ps2Float.new 0xFF800000).sub (Ps2Float.new 0x7F800000)
    = some (Ps2Float.new 0xFFFFFFFF) := by decide
example : (Ps2Float.new 0x80000000).add (Ps2Float.new 0x80000000)
    = some (Ps2Float.new 0x80000000) := by decide
example : (Ps2Float.new 0x00000000).add (Ps2Float.new 0x7F800000)
    = some (Ps2Float.new 0x7F800000) := by decide
example : (Ps2Float.new 0x7F800000).add (Ps2Float.new 0x7F800000)
    = some (Ps2Float.new 0x7FFFFFFF) := by decide

/-! ### Bit-field arithmetic helpers -/

/-- An OR with disjoint low bits is an addition. -/
theorem lor_shift_add (a b k : Nat) (hb : b < 2 ^ k) :
    (a <<< k) ||| b = a * 2 ^ k + b := by
  rw [Nat.shiftLeft_eq, Nat.mul_comm a (2 ^ k), ← Nat.mul_add_lt_is_or hb]

/-- Restoring the implicit leading bit is adding `2^23` to a 23-bit mantissa. -/
theorem mantissa_or_implicit (m : Nat) (hm : m < 2 ^ 23) :
    m ||| 0x800000 = 2 ^ 23 + m := by
  rw [Nat.lor_comm]
  have h := lor_shift_add 1 m 23 hm
  simpa using h

/-- `as_u32` in plain arithmetic form, for in-range fields. -/
theorem as_u32_arith (s : Bool) (e m : Nat) (he : e < 256) (hm : m < 2 ^ 23) :
    Ps2Float.as_u32 ⟨s, e, m⟩ = (cond s 1 0) * 2 ^ 31 + e * 2 ^ 23 + m := by
  show ((cond s 1 0) <<< 31) ||| (e <<< 23) ||| m
      = (cond s 1 0) * 2 ^ 31 + e * 2 ^ 23 + m
  have h1 : (cond s 1 0) <<< 31 ||| (e <<< 23) = (cond s 1 0) * 2 ^ 31 + e * 2 ^ 23 := by
    rw [Nat.shiftLeft_eq e 23]
    exact lor_shift_add _ _ 31 (by
      have : e * 2 ^ 23 < 256 * 2 ^ 23 := by
        exact Nat.mul_lt_mul_of_lt_of_le he (Nat.le_refl _) (by norm_num)
      omega)
  rw [h1]
  have h2 : (cond s 1 0) * 2 ^ 31 + e * 2 ^ 23 = ((cond s 1 0) * 2 ^ 8 + e) * 2 ^ 23 := by
    ring
  rw [h2, ← Nat.shiftLeft_eq]
  rw [lor_shift_add _ _ 23 hm, Nat.shiftLeft_eq]

/-- The fields of `new` in plain arithmetic form. -/
theorem new_fields (v : Nat) :
    Ps2Float.new v = ⟨v / 2 ^ 31 % 2 != 0, v / 2 ^ 23 % 256, v % 2 ^ 23⟩ := by
  have hmask8 : (0xFF : Nat) = 2 ^ 8 - 1 := by norm_num
  have hmask23 : (0x7FFFFF : Nat) = 2 ^ 23 - 1 := by norm_num
  simp only [Ps2Float.new, Nat.shiftRight_eq_div_pow, Nat.and_one_is_mod,
    hmask8, hmask23, Nat.and_pow_two_sub_one_eq_mod]

/-- Roundtrip `new` → `as_u32` (the encoding is lossless on 32-bit words). -/
theorem new_as_u32 (v : Nat) (hv : v < 2 ^ 32) : (Ps2Float.new v).as_u32 = v := by
  rw [new_fields]
  rw [as_u32_arith _ _ _ (by omega) (by omega)]
  have hd : v / 2 ^ 31 = 0 ∨ v / 2 ^ 31 = 1 := by omega
  rcases hd with h | h <;> simp only [h] <;> simp <;> omega

/-- Roundtrip `as_u32` → `new` on in-range fields. -/
theorem as_u32_new (s : Bool) (e m : Nat) (he : e < 256) (hm : m < 2 ^ 23) :
    Ps2Float.new (Ps2Float.as_u32 ⟨s, e, m⟩) = ⟨s, e, m⟩ := by
  rw [as_u32_arith _ _ _ he hm, new_fields]
  cases s <;> simp <;> constructor <;> omega

/-- The `exponent` field of `new` is a `u8` value. -/
theorem new_exponent_lt (v : Nat) : (Ps2Float.new v).exponent < 256 := by
  have : (v >>> 23) &&& 0xFF ≤ 0xFF := Nat.and_le_right
  simpa [Ps2Float.new] using Nat.lt_succ_of_le this

/-- The `mantissa` field of `new` is a 23-bit value. -/
theorem new_mantissa_lt (v : Nat) : (Ps2Float.new v).mantissa < 2 ^ 23 := by
  have : v &&& 0x7FFFFF ≤ 0x7FFFFF := Nat.and_le_right
  simpa [Ps2Float.new] using Nat.lt_succ_of_le this

/-- The bit scan never reports a position above 31 for a 32-bit input. -/
theorem msb_scan_le_31 (v : Nat) (hv : v < 2 ^ 32) :
    ∀ k, Ps2Float.msb_scan v k ≤ 31 := by
  intro k
  induction k with
  | zero => simp [Ps2Float.msb_scan]
  | succ k ih =>
    rw [Ps2Float.msb_scan]
    split
    · rename_i h
      by_cases hk : k ≤ 31
      · exact_mod_cast hk
      · exfalso
        have : v >>> k = 0 := by
          rw [Nat.shiftRight_eq_div_pow]
          exact Nat.div_eq_of_lt (lt_of_lt_of_le hv
            (Nat.pow_le_pow_right (by norm_num) (by omega)))
        simp [this] at h
    · exact ih

/-- The binary64 conversion is exact on 32-bit integers. -/
theorem f64_round_nearest_id (n : Nat) (hn : n < 2 ^ 32) :
    f64_round_nearest n = n := by
  have h31 : Ps2Float.msb_scan n 64 ≤ 31 := msb_scan_le_31 n hn 64
  have hsh : ((Ps2Float.msb_scan n 64 + 1).toNat) - 53 = 0 := by omega
  simp [f64_round_nearest, hsh, Nat.mod_one]

/-- `round_towards_zero` is the identity on values with in-range fields. -/
theorem round_towards_zero_id (s : Bool) (e m : Nat)
    (he : e < 256) (hm : m < 2 ^ 23) :
    Ps2Float.round_towards_zero ⟨s, e, m⟩ = ⟨s, e, m⟩ := by
  have hlt : Ps2Float.as_u32 ⟨s, e, m⟩ < 2 ^ 32 := by
    rw [as_u32_arith _ _ _ he hm]
    cases s <;> simp <;> omega
  rw [Ps2Float.round_towards_zero]
  simp only [f64_round_nearest_id _ hlt]
  rw [if_pos (by omega)]
  exact as_u32_new s e m he hm

/-- `norm_shrink` keeps the exponent a `u8` value when it completes. -/
theorem norm_shrink_inr_lt (s : Bool) (k : Nat) :
    ∀ e m e2 m2, e < 256 →
      Ps2Float.norm_shrink s k e m = Sum.inr (e2, m2) → e2 < 256 := by
  induction k with
  | zero =>
    intro e m e2 m2 he h
    simp [Ps2Float.norm_shrink] at h
    omega
  | succ k ih =>
    intro e m e2 m2 he h
    rw [Ps2Float.norm_shrink] at h
    split at h
    · exact absurd h (by simp)
    · rename_i hne
      exact ih (e + 1) _ e2 m2 (by omega) h

/-- `norm_grow` keeps the exponent a `u8` value when it completes. -/
theorem norm_grow_inr_lt (s : Bool) (k : Nat) :
    ∀ e m e2 m2, e < 256 →
      Ps2Float.norm_grow s k e m = Sum.inr (e2, m2) → e2 < 256 := by
  induction k with
  | zero =>
    intro e m e2 m2 he h
    simp [Ps2Float.norm_grow] at h
    omega
  | succ k ih =>
    intro e m e2 m2 he h
    rw [Ps2Float.norm_grow] at h
    split at h
    · exact absurd h (by simp)
    · exact ih (e - 1) _ e2 m2 (by omega) h

/-- When the normalization phase completes, the resulting exponent is
still a `u8` value. -/
theorem core_normalize_inr_lt (s0 sg : Bool) (re m e2 m2 : Nat) (hre : re < 256)
    (h : Ps2Float.core_normalize s0 re m = some (sg, Sum.inr (e2, m2))) :
    e2 < 256 := by
  rw [Ps2Float.core_normalize] at h
  split at h
  · split at h
    · simp only [Option.some.injEq, Prod.mk.injEq] at h
      exact norm_shrink_inr_lt s0 _ _ _ e2 m2 hre h.2
    · split at h
      · simp only [Option.some.injEq, Prod.mk.injEq] at h
        exact norm_grow_inr_lt s0 _ _ _ e2 m2 hre h.2
      · simp only [Option.some.injEq, Prod.mk.injEq, Sum.inr.injEq] at h
        omega
  · simp only [Option.some.injEq, Prod.mk.injEq, Sum.inr.injEq] at h
    omega

/-- When the add/sub core completes its normalization, the resulting
exponent is still a `u8` value. -/
theorem core_inr_exponent_lt (a b : Ps2Float) (add : Bool) (sg : Bool)
    (e2 m2 : Nat) (ha : a.exponent < 256) (hb : b.exponent < 256)
    (h : Ps2Float.do_add_or_sub_core a b add = some (sg, Sum.inr (e2, m2))) :
    e2 < 256 := by
  have hres : (if a.exponent ≥ b.exponent then a.exponent else b.exponent) < 256 := by
    split <;> omega
  rw [Ps2Float.do_add_or_sub_core] at h
  split at h
  · exact absurd h (by simp)
  · rename_i mantissa s0 heq
    exact core_normalize_inr_lt s0 sg _ mantissa e2 m2 hres h

/-! ### The pipeline with the final rounding step removed (for C9) -/

/-- `do_add_or_sub` with the `round_towards_zero` call removed, keeping
everything else identical. -/
def Ps2Float.do_add_or_sub_no_round (self other : Ps2Float) (add : Bool) :
    Option Ps2Float :=
  match Ps2Float.do_add_or_sub_core self other add with
  | none => none
  | some (_, Sum.inl f) => some f
  | some (sg, Sum.inr (e, m)) => some ⟨sg, e, m &&& 0x7FFFFF⟩

/-- `sub` built on the round-free core. -/
def Ps2Float.sub_no_round (self subtrahend : Ps2Float) : Option Ps2Float :=
  if self.is_denormalized || subtrahend.is_denormalized then
    Ps2Float.solve_demoralized_operation self subtrahend false
  else if self.is_abnormal && subtrahend.is_abnormal then
    Ps2Float.solve_abnormal_addition_or_subtraction_operation self subtrahend false
  else if Ps2Float.cmp self subtrahend = Ordering.eq then
    match Ps2Float.determine_subtraction_operation_sign self subtrahend with
    | none => none
    | some sg => some { Ps2Float.new 0 with sign := sg }
  else
    Ps2Float.do_add_or_sub_no_round self subtrahend false

/-- `add` built on the round-free core. -/
def Ps2Float.add_no_round (self addend : Ps2Float) : Option Ps2Float :=
  if self.is_denormalized || addend.is_denormalized then
    Ps2Float.solve_demoralized_operation self addend true
  else if self.is_abnormal && addend.is_abnormal then
    Ps2Float.solve_abnormal_addition_or_subtraction_operation self addend true
  else if self.sign != addend.sign then
    Ps2Float.sub_no_round self addend
  else
    Ps2Float.do_add_or_sub_no_round self addend true

/-- On operands with `u8` exponents, the final rounding step of
`do_add_or_sub` changes nothing. -/
theorem do_add_or_sub_eq_no_round (a b : Ps2Float) (add : Bool)
    (ha : a.exponent < 256) (hb : b.exponent < 256) :
    Ps2Float.do_add_or_sub a b add = Ps2Float.do_add_or_sub_no_round a b add := by
  rw [Ps2Float.do_add_or_sub, Ps2Float.do_add_or_sub_no_round]
  rcases hcore : Ps2Float.do_add_or_sub_core a b add with _ | ⟨sg, f | ⟨e, m⟩⟩
  · rfl
  · rfl
  · have he : e < 256 := core_inr_exponent_lt a b add sg e m ha hb hcore
    have hm : m &&& 0x7FFFFF < 2 ^ 23 := by
      have : m &&& 0x7FFFFF ≤ 0x7FFFFF := Nat.and_le_right
      omega
    simp only []
    rw [round_towards_zero_id sg e (m &&& 0x7FFFFF) he hm]

/-- On operands with `u8` exponents, `sub` equals the round-free `sub`. -/
theorem sub_eq_no_round (a b : Ps2Float)
    (ha : a.exponent < 256) (hb : b.exponent < 256) :
    Ps2Float.sub a b = Ps2Float.sub_no_round a b := by
  rw [Ps2Float.sub, Ps2Float.sub_no_round,
    do_add_or_sub_eq_no_round a b false ha hb]

/-- On operands with `u8` exponents, `add` equals the round-free `add`. -/
theorem add_eq_no_round (a b : Ps2Float)
    (ha : a.exponent < 256) (hb : b.exponent < 256) :
    Ps2Float.add a b = Ps2Float.add_no_round a b := by
  rw [Ps2Float.add, Ps2Float.add_no_round,
    do_add_or_sub_eq_no_round a b true ha hb,
    sub_eq_no_round a b ha hb]

/-- The add-mode core is symmetric in its operands when the signs agree:
the exponent difference, the chosen alignment shift, and the resulting
exponent are symmetric, and the mantissa sum commutes. -/
theorem do_core_add_comm (a b : Ps2Float) (hs : a.sign = b.sign) :
    Ps2Float.do_add_or_sub_core a b true = Ps2Float.do_add_or_sub_core b a true := by
  rw [Ps2Float.do_add_or_sub_core, Ps2Float.do_add_or_sub_core]
  simp only [if_true]
  by_cases hab : a.exponent ≥ b.exponent
  · by_cases hba : b.exponent ≥ a.exponent
    · have he : a.exponent = b.exponent := le_antisymm hba hab
      simp only [he, hs, Nat.sub_self, ite_self, Nat.zero_mod, Nat.shiftRight_zero,
        ge_iff_le, le_refl, if_true]
      rw [Nat.add_comm]
    · simp only [if_pos hab, if_neg hba, hs]
      rw [Nat.add_comm]
  · have hba : b.exponent ≥ a.exponent := by omega
    simp only [if_neg hab, if_pos hba, hs]
    rw [Nat.add_comm]

/-- `do_add_or_sub` in add mode is symmetric when the operand signs agree. -/
theorem do_add_or_sub_add_comm (a b : Ps2Float) (hs : a.sign = b.sign) :
    Ps2Float.do_add_or_sub a b true = Ps2Float.do_add_or_sub b a true := by
  rw [Ps2Float.do_add_or_sub, Ps2Float.do_add_or_sub, do_core_add_comm a b hs]

/-! ### Claims -/

/-- C7: Encoding round-trip: for every 32-bit word `v`, constructing a
float from `v` with the bit constructor and reading its bits back returns
`v` exactly (`Ps2Float::new(v).as_u32() == v`). -/
theorem c7_encoding_roundtrip (v : Nat) (hv : v < 2 ^ 32) :
    (Ps2Float.new v).as_u32 = v :=
  new_as_u32 v hv

theorem c7_witness :
    0x40A9999A < 2 ^ 32 ∧ (Ps2Float.new 0x40A9999A).as_u32 = 0x40A9999A :=
  ⟨by norm_num, c7_encoding_roundtrip 0x40A9999A (by norm_num)⟩

/-- C1 (code bug): `sub` can return a denormalized value with a nonzero
mantissa, contradicting the no-denormal-results invariant: subtracting
`0x00800000` from `0x00E00000` normalizes with a final exponent decrement
that lands exactly on 0, and the flush-to-zero underflow check (which only
fires when decrementing below 0) does not trigger, so the code returns
exponent 0 with mantissa `0x400000` (encoding `0x00400000`). -/
theorem c1_denormal_result_bug :
    (Ps2Float.new 0x00E00000).sub (Ps2Float.new 0x00800000)
        = some ⟨false, 0, 0x400000⟩ ∧
    ((Ps2Float.new 0x00E00000).is_denormalized = false ∧
      (Ps2Float.new 0x00800000).is_denormalized = false) := by
  constructor
  · decide
  · constructor <;> decide

/-- C4 (counterexample): the claim says `add(+INF, −INF)` is re-dispatched
to `sub` before the abnormal table is consulted and so does not hit the
fatal unlisted-pair branch; in the code the both-abnormal check precedes
the sign check, the pair `(+INF, −INF)` is not in the table, and the
operation is fatal (`none` models the panic). -/
theorem c4_counterexample :
    (Ps2Float.new 0x7F800000).add (Ps2Float.new 0xFF800000) = none := by
  decide

/-- C4 (amended): differing-sign operands are re-dispatched from `add` to
`sub` only when the operands are not short-circuited as denormal and are
not both abnormal; `add(+INF, −INF)` instead reaches the abnormal table,
whose unlisted-pair branch is fatal. -/
theorem c4_differing_sign_dispatch (a b : Ps2Float)
    (hda : a.is_denormalized = false) (hdb : b.is_denormalized = false)
    (hab : (a.is_abnormal && b.is_abnormal) = false)
    (hs : a.sign ≠ b.sign) :
    a.add b = a.sub b := by
  rw [Ps2Float.add]
  simp [hda, hdb, hab, hs]

theorem c4_witness :
    ((Ps2Float.new 0x3F800000).is_denormalized = false ∧
     (Ps2Float.new 0xBF800000).is_denormalized = false ∧
     ((Ps2Float.new 0x3F800000).is_abnormal &&
       (Ps2Float.new 0xBF800000).is_abnormal) = false ∧
     (Ps2Float.new 0x3F800000).sign ≠ (Ps2Float.new 0xBF800000).sign) ∧
    (Ps2Float.new 0x3F800000).add (Ps2Float.new 0xBF800000)
      = (Ps2Float.new 0x3F800000).sub (Ps2Float.new 0xBF800000) :=
  ⟨⟨by decide, by decide, by decide, by decide⟩,
    c4_differing_sign_dispatch _ _ (by decide) (by decide) (by decide) (by decide)⟩

/-- C10: the panic branches of the sign-resolution helpers are
unreachable: for all inputs both helpers return a boolean (`isSome`),
because the enumerated sign-flag conditions in the both-zero case are
exhaustive. -/
theorem c10_sign_helpers_total (a b : Ps2Float) :
    (Ps2Float.determine_addition_operation_sign a b).isSome = true ∧
    (Ps2Float.determine_subtraction_operation_sign a b).isSome = true := by
  obtain ⟨sa, ea, ma⟩ := a
  obtain ⟨sb, eb, mb⟩ := b
  constructor
  · rw [Ps2Float.determine_addition_operation_sign]
    split
    · cases sa <;> cases sb <;> simp
    · simp
  · rw [Ps2Float.determine_subtraction_operation_sign]
    split
    · cases sa <;> cases sb <;> simp
    · simp only []
      split <;> simp

/-- The abnormal-operand outcome table exactly as the claim states it,
keyed by the ordered pair of encodings and the operation flag; `none` for
every unlisted abnormal pair (fatal error). -/
def abnormal_table_claim (a_val b_val : Nat) (add : Bool) : Option Ps2Float :=
  if a_val = 0x7FFFFFFF ∧ b_val = 0x7FFFFFFF then
    some (if add then Ps2Float.max else Ps2Float.default)
  else if a_val = 0xFFFFFFFF ∧ b_val = 0xFFFFFFFF then
    some (if add then Ps2Float.min else Ps2Float.default)
  else if a_val = 0xFFFFFFFF ∧ b_val = 0x7FFFFFFF then
    some (if add then Ps2Float.max else Ps2Float.min)
  else if a_val = 0x7FFFFFFF ∧ b_val = 0xFFFFFFFF then
    some (if add then Ps2Float.default else Ps2Float.max)
  else if a_val = 0x7F800000 ∧ b_val = 0x7F800000 then
    some (if add then Ps2Float.max else Ps2Float.default)
  else if a_val = 0xFF800000 ∧ b_val = 0x7F800000 then
    some (if add then Ps2Float.default else Ps2Float.min)
  else if a_val = 0xFF800000 ∧ b_val = 0xFF800000 then
    some (if add then Ps2Float.min else Ps2Float.default)
  else
    none

/-- C5: when both operands are abnormal, `add` and `sub` return exactly
the table entry for the ordered pair and operation ((MAX,MAX) add=MAX
sub=+0; (MIN,MIN) add=MIN sub=+0; (MIN,MAX) add=MAX sub=MIN; (MAX,MIN)
add=+0 sub=MAX; (+INF,+INF) add=MAX sub=+0; (−INF,+INF) add=+0 sub=MIN;
(−INF,−INF) add=MIN sub=+0), and every abnormal pair not in the table is
fatal (`none`). -/
theorem c5_abnormal_table (v w : Nat)
    (hv : v ∈ [0x7FFFFFFF, 0xFFFFFFFF, 0x7F800000, 0xFF800000])
    (hw : w ∈ [0x7FFFFFFF, 0xFFFFFFFF, 0x7F800000, 0xFF800000]) :
    (Ps2Float.new v).add (Ps2Float.new w) = abnormal_table_claim v w true ∧
    (Ps2Float.new v).sub (Ps2Float.new w) = abnormal_table_claim v w false := by
  fin_cases hv <;> fin_cases hw <;> exact ⟨by decide, by decide⟩

theorem c5_witness :
    (0x7FFFFFFF ∈ [0x7FFFFFFF, 0xFFFFFFFF, 0x7F800000, 0xFF800000] ∧
     0xFFFFFFFF ∈ [0x7FFFFFFF, 0xFFFFFFFF, 0x7F800000, 0xFF800000]) ∧
    ((Ps2Float.new 0x7FFFFFFF).add (Ps2Float.new 0xFFFFFFFF)
        = abnormal_table_claim 0x7FFFFFFF 0xFFFFFFFF true ∧
     (Ps2Float.new 0x7FFFFFFF).sub (Ps2Float.new 0xFFFFFFFF)
        = abnormal_table_claim 0x7FFFFFFF 0xFFFFFFFF false) :=
  ⟨⟨by decide, by decide⟩,
    c5_abnormal_table 0x7FFFFFFF 0xFFFFFFFF (by decide) (by decide)⟩

/-- Whether an operation result carries one of the infinity encodings. -/
def result_is_infinity (o : Option Ps2Float) : Bool :=
  match o with
  | none => false
  | some r => r.as_u32 == 0x7F800000 || r.as_u32 == 0xFF800000

/-- C2 (counterexample): the claim says no not-both-abnormal pair produces
an infinity encoding, but the normal arithmetic path does:
`0x7FC00000 sub 0x7F000000` (1.5·2^128 − 2^127, neither operand abnormal)
has the exact value 2^128, whose encoding is `0x7F800000` (+INF). -/
theorem c2_counterexample :
    (Ps2Float.new 0x7FC00000).is_abnormal = false ∧
    (Ps2Float.new 0x7F000000).is_abnormal = false ∧
    ((Ps2Float.new 0x7FC00000).sub (Ps2Float.new 0x7F000000)).map Ps2Float.as_u32
      = some 0x7F800000 := by
  exact ⟨by decide, by decide, by decide⟩

/-- C2 (amended): when both operands are abnormal, neither `add` nor `sub`
ever returns an infinity encoding (the table yields only ±Fmax and +0, or
is fatal); infinity results arise only from the denormal short-circuit
passing an infinity input through, or from the normal arithmetic path
producing exponent 255 with mantissa 0. -/
theorem c2_abnormal_pairs_no_infinity (v w : Nat)
    (hv : v ∈ [0x7FFFFFFF, 0xFFFFFFFF, 0x7F800000, 0xFF800000])
    (hw : w ∈ [0x7FFFFFFF, 0xFFFFFFFF, 0x7F800000, 0xFF800000]) :
    result_is_infinity ((Ps2Float.new v).add (Ps2Float.new w)) = false ∧
    result_is_infinity ((Ps2Float.new v).sub (Ps2Float.new w)) = false := by
  fin_cases hv <;> fin_cases hw <;> exact ⟨by decide, by decide⟩

theorem c2_witness :
    (0x7F800000 ∈ [0x7FFFFFFF, 0xFFFFFFFF, 0x7F800000, 0xFF800000] ∧
     0x7F800000 ∈ [0x7FFFFFFF, 0xFFFFFFFF, 0x7F800000, 0xFF800000]) ∧
    (result_is_infinity
        ((Ps2Float.new 0x7F800000).add (Ps2Float.new 0x7F800000)) = false ∧
     result_is_infinity
        ((Ps2Float.new 0x7F800000).sub (Ps2Float.new 0x7F800000)) = false) :=
  ⟨⟨by decide, by decide⟩,
    c2_abnormal_pairs_no_infinity 0x7F800000 0x7F800000 (by decide) (by decide)⟩

/-- C6: for every pair whose low 31 bits are both zero (both operands are
±0), the sum has a negative sign iff both sign bits are set: (−0)+(−0)
yields −0 and every other zero-pair addition yields +0. -/
theorem c6_zero_pair_addition_sign (v w : Nat) (hv : v < 2 ^ 32) (hw : w < 2 ^ 32)
    (hv0 : v &&& 0x7FFFFFFF = 0) (hw0 : w &&& 0x7FFFFFFF = 0) :
    (Ps2Float.new v).add (Ps2Float.new w)
      = some ⟨(Ps2Float.new v).sign && (Ps2Float.new w).sign, 0, 0⟩ := by
  have h31 : (0x7FFFFFFF : Nat) = 2 ^ 31 - 1 := by norm_num
  rw [h31, Nat.and_pow_two_sub_one_eq_mod] at hv0 hw0
  have hv2 : v = 0 ∨ v = 2 ^ 31 := by omega
  have hw2 : w = 0 ∨ w = 2 ^ 31 := by omega
  rcases hv2 with h1 | h1 <;> rcases hw2 with h2 | h2 <;> subst h1 <;> subst h2 <;>
    decide

theorem c6_witness :
    (0x80000000 < 2 ^ 32 ∧ (0x80000000 : Nat) &&& 0x7FFFFFFF = 0) ∧
    (Ps2Float.new 0x80000000).add (Ps2Float.new 0x80000000)
      = some ⟨(Ps2Float.new 0x80000000).sign && (Ps2Float.new 0x80000000).sign,
          0, 0⟩ :=
  ⟨⟨by norm_num, by decide⟩,
    c6_zero_pair_addition_sign 0x80000000 0x80000000
      (by norm_num) (by norm_num) (by decide) (by decide)⟩

/-- C9: the final rounding step is the identity — on every encoded value
`round_towards_zero` returns its argument unchanged (the `u32` encoding
converts exactly to `f64`, truncation of an integral value is a no-op, and
the conversion back is exact) — and therefore `add` and `sub` coincide
with the same pipeline with the rounding step removed. -/
theorem c9_rounding_is_identity (v w : Nat) :
    Ps2Float.round_towards_zero (Ps2Float.new v) = Ps2Float.new v ∧
    (Ps2Float.new v).add (Ps2Float.new w)
      = (Ps2Float.new v).add_no_round (Ps2Float.new w) ∧
    (Ps2Float.new v).sub (Ps2Float.new w)
      = (Ps2Float.new v).sub_no_round (Ps2Float.new w) := by
  refine ⟨?_, ?_, ?_⟩
  · have he := new_exponent_lt v
    have hm := new_mantissa_lt v
    rcases hx : Ps2Float.new v with ⟨s, e, m⟩
    rw [hx] at he hm
    exact round_towards_zero_id s e m he hm
  · exact add_eq_no_round _ _ (new_exponent_lt v) (new_exponent_lt w)
  · exact sub_eq_no_round _ _ (new_exponent_lt v) (new_exponent_lt w)

/-- C3 (counterexample): addition is not commutative at the bit level for
normal operands of differing sign: `add(1.0, −2.0)` wraps the mantissa
subtraction and renormalizes to `0x447FC000`, while `add(−2.0, 1.0)`
yields `0xBF800000` (−1.0); both operands are normal (nonzero exponent,
not abnormal). -/
theorem c3_counterexample :
    ((Ps2Float.new 0x3F800000).exponent ≠ 0 ∧
     (Ps2Float.new 0xC0000000).exponent ≠ 0 ∧
     (Ps2Float.new 0x3F800000).is_abnormal = false ∧
     (Ps2Float.new 0xC0000000).is_abnormal = false) ∧
    ((Ps2Float.new 0x3F800000).add (Ps2Float.new 0xC0000000)).map Ps2Float.as_u32
      ≠ ((Ps2Float.new 0xC0000000).add (Ps2Float.new 0x3F800000)).map Ps2Float.as_u32 := by
  exact ⟨⟨by decide, by decide, by decide, by decide⟩, by decide⟩

/-- C3 (amended): addition is commutative at the bit level for pairs of
normal operands (nonzero exponent, not abnormal) with the same sign:
`a.add(b).to_bits() = b.add(a).to_bits()`. -/
theorem c3_add_commutative_same_sign (v w : Nat)
    (hv : (Ps2Float.new v).exponent ≠ 0) (hw : (Ps2Float.new w).exponent ≠ 0)
    (hav : (Ps2Float.new v).is_abnormal = false)
    (haw : (Ps2Float.new w).is_abnormal = false)
    (hs : (Ps2Float.new v).sign = (Ps2Float.new w).sign) :
    ((Ps2Float.new v).add (Ps2Float.new w)).map Ps2Float.as_u32
      = ((Ps2Float.new w).add (Ps2Float.new v)).map Ps2Float.as_u32 := by
  have h : (Ps2Float.new v).add (Ps2Float.new w)
      = (Ps2Float.new w).add (Ps2Float.new v) := by
    rw [Ps2Float.add, Ps2Float.add]
    have hdv : (Ps2Float.new v).is_denormalized = false := by
      simp [Ps2Float.is_denormalized, hv]
    have hdw : (Ps2Float.new w).is_denormalized = false := by
      simp [Ps2Float.is_denormalized, hw]
    simp only [hdv, hdw, hav, haw, hs, Bool.or_self, Bool.false_and,
      Bool.and_false, Bool.if_false_left, bne_self_eq_false, Bool.false_eq_true,
      if_false]
    exact do_add_or_sub_add_comm _ _ hs
  rw [h]

theorem c3_witness :
    ((Ps2Float.new 0x3F800000).exponent ≠ 0 ∧
     (Ps2Float.new 0x40000000).exponent ≠ 0 ∧
     (Ps2Float.new 0x3F800000).is_abnormal = false ∧
     (Ps2Float.new 0x40000000).is_abnormal = false ∧
     (Ps2Float.new 0x3F800000).sign = (Ps2Float.new 0x40000000).sign) ∧
    ((Ps2Float.new 0x3F800000).add (Ps2Float.new 0x40000000)).map Ps2Float.as_u32
      = ((Ps2Float.new 0x40000000).add (Ps2Float.new 0x3F800000)).map Ps2Float.as_u32 :=
  ⟨⟨by decide, by decide, by decide, by decide, by decide⟩,
    c3_add_commutative_same_sign 0x3F800000 0x40000000
      (by decide) (by decide) (by decide) (by decide) (by decide)⟩

/-- Adding a normal, non-abnormal positive value to its sign-flipped twin:
the mantissas align with zero shift, the wrapping subtraction cancels
exactly, normalization is skipped, and the result is `+2^(E-127)`. -/
theorem add_sign_flipped_struct (E M : Nat) (hE : E < 256) (hM : M < 2 ^ 23)
    (hE0 : E ≠ 0) (hab : Ps2Float.is_abnormal ⟨false, E, M⟩ = false) :
    Ps2Float.add ⟨false, E, M⟩ ⟨true, E, M⟩ = some ⟨false, E, 0⟩ := by
  have hax : Ps2Float.as_u32 ⟨false, E, M⟩ = E * 2 ^ 23 + M := by
    rw [as_u32_arith false E M hE hM]; simp
  have hay : Ps2Float.as_u32 ⟨true, E, M⟩ = 2 ^ 31 + E * 2 ^ 23 + M := by
    rw [as_u32_arith true E M hE hM]; simp
  have hlow : E * 2 ^ 23 + M < 2 ^ 31 := by omega
  have h31 : (0x7FFFFFFF : Nat) = 2 ^ 31 - 1 := by norm_num
  have hmx : Ps2Float.as_u32 ⟨false, E, M⟩ &&& 0x7FFFFFFF = E * 2 ^ 23 + M := by
    rw [hax, h31, Nat.and_pow_two_sub_one_eq_mod]
    exact Nat.mod_eq_of_lt hlow
  have hmy : Ps2Float.as_u32 ⟨true, E, M⟩ &&& 0x7FFFFFFF = E * 2 ^ 23 + M := by
    rw [hay, h31, Nat.and_pow_two_sub_one_eq_mod]
    omega
  have hpos : 0 < E * 2 ^ 23 + M := by omega
  have hzx : Ps2Float.is_zero ⟨false, E, M⟩ = false := by
    rw [Ps2Float.is_zero, hmx]
    simp only [beq_eq_false_iff_ne, ne_eq]
    omega
  have hcmp : Ps2Float.cmp ⟨false, E, M⟩ ⟨true, E, M⟩ = Ordering.gt := by
    rw [Ps2Float.cmp, Ps2Float.cmp_val, Ps2Float.cmp_val]
    simp only [hmx, hmy]
    rw [if_neg (show ¬(false = true) by simp)]
    simp only [if_true]
    rw [if_neg (by omega), if_neg (by omega)]
  have hsign : Ps2Float.determine_subtraction_operation_sign
      ⟨false, E, M⟩ ⟨true, E, M⟩ = some false := by
    rw [Ps2Float.determine_subtraction_operation_sign]
    simp only [hzx, Bool.false_and, Bool.false_eq_true, if_false, hcmp]
  have hor : M ||| 0x800000 = 2 ^ 23 + M := mantissa_or_implicit M hM
  have hws : wrap_sub32 (M ||| 0x800000) (M ||| 0x800000) = 0 := by
    rw [hor, wrap_sub32]
    omega
  have hcore : Ps2Float.do_add_or_sub_core ⟨false, E, M⟩ ⟨true, E, M⟩ false
      = some (false, Sum.inr (E, 0)) := by
    rw [Ps2Float.do_add_or_sub_core]
    simp only [hsign, ge_iff_le, le_refl, if_true, Nat.sub_self, Nat.zero_mod,
      Nat.shiftRight_zero, Bool.false_eq_true, if_false, hws]
    rw [Ps2Float.core_normalize]
    simp
  have hd1 : Ps2Float.is_denormalized ⟨false, E, M⟩ = false := by
    simp [Ps2Float.is_denormalized, hE0]
  have hd2 : Ps2Float.is_denormalized ⟨true, E, M⟩ = false := by
    simp [Ps2Float.is_denormalized, hE0]
  rw [Ps2Float.add]
  simp only [hd1, hd2, Bool.or_self, Bool.false_eq_true, if_false, hab,
    Bool.false_and]
  rw [if_pos (by decide)]
  rw [Ps2Float.sub]
  simp only [hd1, hd2, Bool.or_self, Bool.false_eq_true, if_false, hab,
    Bool.false_and, hcmp]
  rw [if_neg (by decide)]
  rw [Ps2Float.do_add_or_sub, hcore]
  simp only [Nat.zero_and]
  rw [round_towards_zero_id false E 0 hE (by norm_num)]

/-- C8: adding a value to its exact negation does not yield zero: for
every `v` with positive sign, nonzero exponent, and not abnormal, letting
`y` be `v` with only the sign bit flipped, `add` returns sign 0, `v`'s
exponent, and mantissa 0 — the power of two `2^(exponent−127)`. -/
theorem c8_add_exact_negation (v : Nat) (hv : v < 2 ^ 31)
    (he : (Ps2Float.new v).exponent ≠ 0)
    (hab : (Ps2Float.new v).is_abnormal = false) :
    (Ps2Float.new v).add (Ps2Float.new (v + 2 ^ 31))
      = some ⟨false, (Ps2Float.new v).exponent, 0⟩ := by
  have hx : Ps2Float.new v = ⟨false, v / 2 ^ 23 % 256, v % 2 ^ 23⟩ := by
    rw [new_fields]
    have h0 : v / 2 ^ 31 = 0 := Nat.div_eq_of_lt hv
    rw [h0]
    simp
  have hy : Ps2Float.new (v + 2 ^ 31) = ⟨true, v / 2 ^ 23 % 256, v % 2 ^ 23⟩ := by
    rw [new_fields]
    have h1 : (v + 2 ^ 31) / 2 ^ 31 % 2 = 1 := by omega
    have h2 : (v + 2 ^ 31) / 2 ^ 23 % 256 = v / 2 ^ 23 % 256 := by omega
    have h3 : (v + 2 ^ 31) % 2 ^ 23 = v % 2 ^ 23 := by omega
    rw [h1, h2, h3]
    simp
  rw [hx] at he hab
  rw [hx, hy]
  exact add_sign_flipped_struct (v / 2 ^ 23 % 256) (v % 2 ^ 23)
    (Nat.mod_lt _ (by norm_num)) (Nat.mod_lt _ (by norm_num)) he hab

theorem c8_witness :
    (0x3FC00000 < 2 ^ 31 ∧ (Ps2Float.new 0x3FC00000).exponent ≠ 0 ∧
     (Ps2Float.new 0x3FC00000).is_abnormal = false) ∧
    (Ps2Float.new 0x3FC00000).add (Ps2Float.new (0x3FC00000 + 2 ^ 31))
      = some ⟨false, (Ps2Float.new 0x3FC00000).exponent, 0⟩ :=
  ⟨⟨by norm_num, by decide, by decide⟩,
    c8_add_exact_negation 0x3FC00000 (by norm_num) (by decide) (by decide)⟩
